import Mathlib

/-!
Formal model of the XChange-Hub currency dashboard core.

This file embeds, in Lean, the view-model logic of the repository's two
rate-table pages:

* `src/pages/CurrencyChartsFullPage.tsx` — the `makeTrend` walk generator and
  the `rows` computation (here `makeTrendFull`, `rowsFullPage`);
* `src/pages/CurrencyChartsSection.tsx` — its `makeTrend` variant, the
  `crossRate` sample fallback and its `rows` computation (here
  `makeTrendSection`, `crossRate`, `rowsSection`);
* `src/pages/GetAlertsSection.tsx` — `loadAlerts` and `validateForm`;
* the cancelled-flag fetch effect shared by both chart pages, as a small
  event-trace transition system (`fetchStep`).

JavaScript numbers are modelled as rationals (`ℚ`); all arithmetic in the
modelled code paths is exact at the scales involved.  The JS remainder
operator `%` on integers truncates toward zero, which is `Int.tmod`.
JS objects with string keys are modelled as association lists in insertion
order (`Object.keys` enumerates string keys in insertion order).
-/

/-- The range selector `"24H" | "7D" | "30D" | "3M"` of both chart pages. -/
inductive RangeKey where
  | h24
  | d7
  | d30
  | m3
deriving DecidableEq

/-- Volatility spread per step, identical in both `makeTrend` variants:
`0.004`, and `0.008` / `0.012` / `0.018` for `7D` / `30D` / `3M`. -/
def spreadOf : RangeKey → ℚ
  | RangeKey.h24 => 4 / 1000
  | RangeKey.d7 => 8 / 1000
  | RangeKey.d30 => 12 / 1000
  | RangeKey.m3 => 18 / 1000

/-- Series length in `CurrencyChartsFullPage.makeTrend`:
`range === "24H" ? 18 : range === "7D" ? 22 : range === "30D" ? 26 : 30`. -/
def lengthFull : RangeKey → Nat
  | RangeKey.h24 => 18
  | RangeKey.d7 => 22
  | RangeKey.d30 => 26
  | RangeKey.m3 => 30

/-- Series length in `CurrencyChartsSection.makeTrend`:
`range === "24H" ? 16 : range === "7D" ? 20 : range === "30D" ? 24 : 28`. -/
def lengthSection : RangeKey → Nat
  | RangeKey.h24 => 16
  | RangeKey.d7 => 20
  | RangeKey.d30 => 24
  | RangeKey.m3 => 28

/-- The per-step pseudo-random value of `CurrencyChartsFullPage.makeTrend`:
`s = (seed + 11) * (i + 17); rand = ((s * 9301 + 49297) % 233280) / 233280 * 2 - 1`.
JS `%` truncates toward zero, hence `Int.tmod`. -/
def randFull (seed : ℤ) (i : ℕ) : ℚ :=
  ((((seed + 11) * ((i : ℤ) + 17) * 9301 + 49297).tmod 233280 : ℤ) : ℚ) / 233280 * 2 - 1

/-- The per-step pseudo-random value of `CurrencyChartsSection.makeTrend`:
`s = (seed + 7) * (i + 11); rand = ((s * 9301 + 49297) % 233280) / 233280 * 2 - 1`. -/
def randSection (seed : ℤ) (i : ℕ) : ℚ :=
  ((((seed + 7) * ((i : ℤ) + 11) * 9301 + 49297).tmod 233280 : ℤ) : ℚ) / 233280 * 2 - 1

/-- The loop shared verbatim by both `makeTrend` variants:
`for (i = 0; i < length; i++) { v = v * (1 + step(i)); values.push(v) }`,
where `step i` is the variant's `rand(i) * spread`.  The first argument is
the number of remaining iterations, then the current index and current `v`. -/
def trendLoop (step : ℕ → ℚ) : ℕ → ℕ → ℚ → List ℚ
  | 0, _, _ => []
  | n + 1, i, v =>
    let v2 := v * (1 + step i)
    v2 :: trendLoop step n (i + 1) v2

/-- `makeTrend` of `CurrencyChartsFullPage.tsx`. -/
def makeTrendFull (range : RangeKey) (seed : ℤ) : List ℚ :=
  trendLoop (fun i => randFull seed i * spreadOf range) (lengthFull range) 0 1

/-- `makeTrend` of `CurrencyChartsSection.tsx`. -/
def makeTrendSection (range : RangeKey) (seed : ℤ) : List ℚ :=
  trendLoop (fun i => randSection seed i * spreadOf range) (lengthSection range) 0 1

lemma neg_tmod_eq (a b : ℤ) : (-a).tmod b = -(a.tmod b) := by
  rw [Int.tmod_def, Int.tmod_def, Int.neg_tdiv]
  ring

lemma tmod_bounds (a : ℤ) {b : ℤ} (hb : 0 < b) : -b < a.tmod b ∧ a.tmod b < b := by
  refine ⟨?_, Int.tmod_lt_of_pos _ hb⟩
  rcases le_or_lt 0 a with h | h
  · have := Int.tmod_nonneg b h
    omega
  · have h1 : (-a).tmod b < b := Int.tmod_lt_of_pos _ hb
    have h2 : (-a).tmod b = -(a.tmod b) := neg_tmod_eq a b
    omega

/-- Any value of the shape `(m % 233280) / 233280 * 2 - 1` lies in `(-3, 1)`. -/
lemma rand_core_bounds (m : ℤ) (hlo : -233280 < m) (hhi : m < 233280) :
    -3 < (m : ℚ) / 233280 * 2 - 1 ∧ (m : ℚ) / 233280 * 2 - 1 < 1 := by
  have hql : (-233280 : ℚ) < (m : ℚ) := by exact_mod_cast hlo
  have hqh : (m : ℚ) < 233280 := by exact_mod_cast hhi
  have h1 : (m : ℚ) / 233280 < 1 := by
    rw [div_lt_one (by norm_num)]
    linarith
  have h2 : (-1 : ℚ) < (m : ℚ) / 233280 := by
    rw [lt_div_iff (by norm_num)]
    linarith
  constructor <;> linarith

lemma randFull_bounds (seed : ℤ) (i : ℕ) : -3 < randFull seed i ∧ randFull seed i < 1 := by
  unfold randFull
  exact rand_core_bounds _ (tmod_bounds _ (by norm_num)).1 (tmod_bounds _ (by norm_num)).2

lemma randSection_bounds (seed : ℤ) (i : ℕ) :
    -3 < randSection seed i ∧ randSection seed i < 1 := by
  unfold randSection
  exact rand_core_bounds _ (tmod_bounds _ (by norm_num)).1 (tmod_bounds _ (by norm_num)).2

lemma spreadOf_pos (range : RangeKey) : 0 < spreadOf range := by
  cases range <;> norm_num [spreadOf]

lemma spreadOf_le (range : RangeKey) : spreadOf range ≤ 18 / 1000 := by
  cases range <;> norm_num [spreadOf]

/-- Each multiplicative factor `1 + rand * spread` is strictly positive. -/
lemma factor_pos {r c : ℚ} (h3 : -3 < r) (h1 : r < 1) (hc : 0 < c) (hc18 : c ≤ 18 / 1000) :
    0 < 1 + r * c := by
  rcases le_or_lt 0 r with hr | hr
  · nlinarith
  · have hm : -3 * c < r * c := by
      exact mul_lt_mul_of_pos_right h3 hc
    nlinarith

lemma trendLoop_length (step : ℕ → ℚ) : ∀ (n i : ℕ) (v : ℚ), (trendLoop step n i v).length = n := by
  intro n
  induction n with
  | zero => intro i v; rfl
  | succ n ih =>
    intro i v
    simp [trendLoop, ih]

lemma trendLoop_pos (step : ℕ → ℚ) (hstep : ∀ i, 0 < 1 + step i) :
    ∀ (n i : ℕ) (v : ℚ), 0 < v → ∀ x ∈ trendLoop step n i v, 0 < x := by
  intro n
  induction n with
  | zero => intro i v _ x hx; simp [trendLoop] at hx
  | succ n ih =>
    intro i v hv x hx
    simp only [trendLoop, List.mem_cons] at hx
    have hv2 : 0 < v * (1 + step i) := mul_pos hv (hstep i)
    rcases hx with hx | hx
    · rw [hx]; exact hv2
    · exact ih (i + 1) _ hv2 x hx

lemma makeTrendFull_length (range : RangeKey) (seed : ℤ) :
    (makeTrendFull range seed).length = lengthFull range :=
  trendLoop_length _ _ _ _

lemma makeTrendSection_length (range : RangeKey) (seed : ℤ) :
    (makeTrendSection range seed).length = lengthSection range :=
  trendLoop_length _ _ _ _

lemma makeTrendFull_pos (range : RangeKey) (seed : ℤ) :
    ∀ x ∈ makeTrendFull range seed, 0 < x := by
  refine trendLoop_pos _ (fun i => ?_) _ _ _ one_pos
  exact factor_pos (randFull_bounds seed i).1 (randFull_bounds seed i).2
    (spreadOf_pos range) (spreadOf_le range)

lemma makeTrendSection_pos (range : RangeKey) (seed : ℤ) :
    ∀ x ∈ makeTrendSection range seed, 0 < x := by
  refine trendLoop_pos _ (fun i => ?_) _ _ _ one_pos
  exact factor_pos (randSection_bounds seed i).1 (randSection_bounds seed i).2
    (spreadOf_pos range) (spreadOf_le range)

/-- **C4** — For every `RangeKey` and every integer seed, each `makeTrend`
variant returns a sequence whose length is a fixed constant determined solely
by the range (section page: 16/20/24/28, full page: 18/22/26/30, all within
the stated 16–18 / 20–22 / 24–26 / 28–30 windows and strictly increasing in
range order), and repeated calls with the same `(range, seed)` return
identical sequences (the generators are pure functions of their arguments). -/
theorem c4_trend_length_deterministic (seed : ℤ) :
    ((makeTrendSection RangeKey.h24 seed).length = 16 ∧
      (makeTrendSection RangeKey.d7 seed).length = 20 ∧
      (makeTrendSection RangeKey.d30 seed).length = 24 ∧
      (makeTrendSection RangeKey.m3 seed).length = 28) ∧
    ((makeTrendFull RangeKey.h24 seed).length = 18 ∧
      (makeTrendFull RangeKey.d7 seed).length = 22 ∧
      (makeTrendFull RangeKey.d30 seed).length = 26 ∧
      (makeTrendFull RangeKey.m3 seed).length = 30) ∧
    (16 ≤ (makeTrendSection RangeKey.h24 seed).length ∧
      (makeTrendSection RangeKey.h24 seed).length ≤ 18 ∧
      20 ≤ (makeTrendSection RangeKey.d7 seed).length ∧
      (makeTrendSection RangeKey.d7 seed).length ≤ 22 ∧
      24 ≤ (makeTrendSection RangeKey.d30 seed).length ∧
      (makeTrendSection RangeKey.d30 seed).length ≤ 26 ∧
      28 ≤ (makeTrendSection RangeKey.m3 seed).length ∧
      (makeTrendSection RangeKey.m3 seed).length ≤ 30) ∧
    (16 ≤ (makeTrendFull RangeKey.h24 seed).length ∧
      (makeTrendFull RangeKey.h24 seed).length ≤ 18 ∧
      20 ≤ (makeTrendFull RangeKey.d7 seed).length ∧
      (makeTrendFull RangeKey.d7 seed).length ≤ 22 ∧
      24 ≤ (makeTrendFull RangeKey.d30 seed).length ∧
      (makeTrendFull RangeKey.d30 seed).length ≤ 26 ∧
      28 ≤ (makeTrendFull RangeKey.m3 seed).length ∧
      (makeTrendFull RangeKey.m3 seed).length ≤ 30) ∧
    ((makeTrendSection RangeKey.h24 seed).length < (makeTrendSection RangeKey.d7 seed).length ∧
      (makeTrendSection RangeKey.d7 seed).length < (makeTrendSection RangeKey.d30 seed).length ∧
      (makeTrendSection RangeKey.d30 seed).length < (makeTrendSection RangeKey.m3 seed).length) ∧
    ((makeTrendFull RangeKey.h24 seed).length < (makeTrendFull RangeKey.d7 seed).length ∧
      (makeTrendFull RangeKey.d7 seed).length < (makeTrendFull RangeKey.d30 seed).length ∧
      (makeTrendFull RangeKey.d30 seed).length < (makeTrendFull RangeKey.m3 seed).length) ∧
    (∀ range : RangeKey, makeTrendFull range seed = makeTrendFull range seed ∧
      makeTrendSection range seed = makeTrendSection range seed) := by
  simp [makeTrendFull_length, makeTrendSection_length, lengthFull, lengthSection]

/-- **C5** — For every `RangeKey` and every integer seed, both trend series
are non-empty and every element is strictly positive: the walk starts at 1
and each factor `1 + rand * spread` is positive, because `rand ∈ (-3, 1)`
and `spread ≤ 0.018`. -/
theorem c5_trend_positive (range : RangeKey) (seed : ℤ) :
    (0 < (makeTrendFull range seed).length ∧
      (makeTrendFull range seed).all (fun v => decide (0 < v)) = true) ∧
    (0 < (makeTrendSection range seed).length ∧
      (makeTrendSection range seed).all (fun v => decide (0 < v)) = true) := by
  refine ⟨⟨?_, ?_⟩, ?_, ?_⟩
  · rw [makeTrendFull_length]; cases range <;> norm_num [lengthFull]
  · rw [List.all_eq_true]
    intro v hv
    simpa using makeTrendFull_pos range seed v hv
  · rw [makeTrendSection_length]; cases range <;> norm_num [lengthSection]
  · rw [List.all_eq_true]
    intro v hv
    simpa using makeTrendSection_pos range seed v hv

/-- **C2**, counterexample — the claim asserts the pseudo-random value lies in
`[-1, 1]` for *every* integer seed, but JS `%` keeps the sign of its dividend:
at `seed = -12`, step index `i = 0` (a valid index for range `24H` in both
variants), both variants produce a value strictly below `-1`. -/
theorem c2_counterexample :
    0 < lengthFull RangeKey.h24 ∧ 0 < lengthSection RangeKey.h24 ∧
    ¬ (-1 ≤ randFull (-12) 0 ∧ randFull (-12) 0 ≤ 1) ∧
    ¬ (-1 ≤ randSection (-12) 0 ∧ randSection (-12) 0 ≤ 1) := by
  have hf : randFull (-12) 0 < -1 := by
    have h : ((((-12 : ℤ) + 11) * ((0 : ℕ) + 17) * 9301 + 49297).tmod 233280) = -108820 := by
      decide
    unfold randFull
    rw [h]
    norm_num
  have hs : randSection (-12) 0 < -1 := by
    have h : ((((-12 : ℤ) + 7) * ((0 : ℕ) + 11) * 9301 + 49297).tmod 233280) = -228978 := by
      decide
    unfold randSection
    rw [h]
    norm_num
  refine ⟨by norm_num [lengthFull], by norm_num [lengthSection], ?_, ?_⟩
  · rintro ⟨h1, -⟩; linarith
  · rintro ⟨h1, -⟩; linarith

/-- **C2**, amended — for every `RangeKey`, every *non-negative* seed (which
covers every seed the two call sites actually pass: `index + 0/10/20`), and
every step index, the pseudo-random value of both `makeTrend` variants lies
in `[-1, 1]`: the hashed value is non-negative, so JS `%` returns a
remainder in `[0, 233280)`. -/
theorem c2_amended (range : RangeKey) (seed : ℤ) (i : ℕ) (hseed : 0 ≤ seed)
    (hi : i < lengthFull range) :
    (-1 ≤ randFull seed i ∧ randFull seed i ≤ 1) ∧
    (-1 ≤ randSection seed i ∧ randSection seed i ≤ 1) := by
  clear hi
  have key : ∀ m : ℤ, 0 ≤ m →
      -1 ≤ (m.tmod 233280 : ℚ) / 233280 * 2 - 1 ∧ (m.tmod 233280 : ℚ) / 233280 * 2 - 1 ≤ 1 := by
    intro m hm
    have h0 : 0 ≤ m.tmod 233280 := Int.tmod_nonneg _ hm
    have h1 : m.tmod 233280 < 233280 := Int.tmod_lt_of_pos _ (by norm_num)
    have hq0 : (0 : ℚ) ≤ (m.tmod 233280 : ℤ) := by exact_mod_cast h0
    have hq1 : ((m.tmod 233280 : ℤ) : ℚ) < 233280 := by exact_mod_cast h1
    have hd0 : (0 : ℚ) ≤ ((m.tmod 233280 : ℤ) : ℚ) / 233280 := by positivity
    have hd1 : ((m.tmod 233280 : ℤ) : ℚ) / 233280 < 1 := by
      rw [div_lt_one (by norm_num)]
      exact hq1
    constructor <;> linarith
  constructor
  · exact key _ (by positivity)
  · exact key _ (by positivity)

/-- Witness for `c2_amended` at `range = 24H`, `seed = 0`, `i = 0`. -/
theorem c2_amended_witness :
    (0 : ℤ) ≤ 0 ∧ (0 : ℕ) < lengthFull RangeKey.h24 ∧
    ((-1 ≤ randFull 0 0 ∧ randFull 0 0 ≤ 1) ∧
      (-1 ≤ randSection 0 0 ∧ randSection 0 0 ≤ 1)) :=
  ⟨le_refl 0, by norm_num [lengthFull],
    c2_amended RangeKey.h24 0 0 (le_refl 0) (by norm_num [lengthFull])⟩

/-- Row view-model produced by both `rows` computations (`TableRow` in
`CurrencyChartsFullPage.tsx`; the mapped record in `CurrencyChartsSection.tsx`
has the same fields). -/
structure TableRow where
  code : String
  name : String
  flag : String
  rate : ℚ
  changePct : ℚ
  values : List ℚ
  isFocus : Bool

/-- Computable lexicographic strict comparison of character lists, modelling
the order induced by JS `String.prototype.localeCompare` on the plain ASCII
currency codes this system uses (for such strings `localeCompare` agrees with
code-unit order). -/
def charListLt : List Char → List Char → Bool
  | _, [] => false
  | [], _ :: _ => true
  | a :: as, b :: bs => decide (a < b) || (a == b && charListLt as bs)

/-- `a` is strictly before `b` in code-unit lexicographic order. -/
def strLtb (a b : String) : Bool :=
  charListLt a.data b.data

lemma charListLt_iff_lex :
    ∀ as bs : List Char, charListLt as bs = true ↔ List.Lex (· < ·) as bs := by
  intro as
  induction as with
  | nil =>
    intro bs
    cases bs with
    | nil => simp [charListLt]
    | cons b bs => simp [charListLt]; exact List.Lex.nil
  | cons a as ih =>
    intro bs
    cases bs with
    | nil =>
      simp only [charListLt, Bool.false_eq_true, false_iff]
      exact List.Lex.not_nil_right _ _
    | cons b bs =>
      simp only [charListLt, Bool.or_eq_true, decide_eq_true_eq, Bool.and_eq_true, beq_iff_eq]
      constructor
      · rintro (hab | ⟨rfl, h⟩)
        · exact List.Lex.rel hab
        · exact List.Lex.cons ((ih bs).mp h)
      · intro h
        cases h with
        | cons h => exact Or.inr ⟨rfl, (ih bs).mpr h⟩
        | rel h => exact Or.inl h

lemma strLtb_iff (a b : String) : strLtb a b = true ↔ a < b := by
  rw [strLtb, charListLt_iff_lex]
  exact String.lt_iff_toList_lt.symm

lemma strLtb_false_iff (a b : String) : strLtb a b = false ↔ b ≤ a := by
  rw [← Bool.not_eq_true, strLtb_iff, not_lt]

/-- The sort comparator of both `rows` computations:
`(a, b) => a.isFocus && !b.isFocus ? -1 : !a.isFocus && b.isFocus ? 1 :
a.code.localeCompare(b.code)`.  `rowLe a b` states that the comparator is
`≤ 0` on `(a, b)`, i.e. that `a` may come before `b` in the sorted output. -/
def rowLe (a b : TableRow) : Bool :=
  if a.isFocus && !b.isFocus then true
  else if !a.isFocus && b.isFocus then false
  else !(strLtb b.code a.code)

lemma rowLe_total (a b : TableRow) : rowLe a b = true ∨ rowLe b a = true := by
  unfold rowLe
  cases ha : a.isFocus <;> cases hb : b.isFocus <;> simp
  all_goals
    rcases le_total a.code b.code with h | h
    · left; rw [strLtb_false_iff]; exact h
    · right; rw [strLtb_false_iff]; exact h

lemma rowLe_trans {a b c : TableRow} (hab : rowLe a b = true) (hbc : rowLe b c = true) :
    rowLe a c = true := by
  unfold rowLe at hab hbc ⊢
  cases ha : a.isFocus <;> cases hb : b.isFocus <;> cases hc : c.isFocus <;>
    simp [ha, hb, hc] at hab hbc ⊢ <;>
    rw [strLtb_false_iff] at * <;> exact le_trans hab hbc

/-- JS `Array.prototype.sort` with a consistent comparator returns a
permutation of the input that is sorted by the comparator; it is embedded
here as insertion sort on the `rowLe` relation. -/
def sortRows (l : List TableRow) : List TableRow :=
  l.insertionSort (fun a b => rowLe a b = true)

instance : IsTotal TableRow (fun a b => rowLe a b = true) :=
  ⟨rowLe_total⟩

instance : IsTrans TableRow (fun a b => rowLe a b = true) :=
  ⟨fun _ _ _ => rowLe_trans⟩

lemma sortRows_perm (l : List TableRow) : (sortRows l).Perm l :=
  List.perm_insertionSort _ l

lemma sortRows_sorted (l : List TableRow) :
    List.Pairwise (fun a b => rowLe a b = true) (sortRows l) :=
  List.sorted_insertionSort _ l

/-- A fetched rate snapshot: the JS object `rates` (quote code ↦ rate),
modelled as an association list in key insertion order. -/
abbrev RateSnapshot := List (String × ℚ)

/-- JS property access `rates[code]` (first matching key, `undefined ↦ none`). -/
def lookupRate (rates : RateSnapshot) (code : String) : Option ℚ :=
  List.lookup code rates

/-- `getName` of `CurrencyChartsFullPage.tsx` (switch over known codes,
defaulting to the code itself). -/
def getName (code : String) : String :=
  if code = "USD" then "US Dollar"
  else if code = "EUR" then "Euro"
  else if code = "GBP" then "British Pound"
  else if code = "JPY" then "Japanese Yen"
  else if code = "CAD" then "Canadian Dollar"
  else if code = "AUD" then "Australian Dollar"
  else if code = "INR" then "Indian Rupee"
  else if code = "SGD" then "Singapore Dollar"
  else if code = "CHF" then "Swiss Franc"
  else if code = "ZAR" then "South African Rand"
  else code

/-- `FLAGS[code] ?? "🌐"` of `CurrencyChartsFullPage.tsx`. -/
def flagOf (code : String) : String :=
  if code = "USD" then "🇺🇸"
  else if code = "EUR" then "🇪🇺"
  else if code = "GBP" then "🇬🇧"
  else if code = "JPY" then "🇯🇵"
  else if code = "CAD" then "🇨🇦"
  else if code = "AUD" then "🇦🇺"
  else if code = "INR" then "🇮🇳"
  else if code = "SGD" then "🇸🇬"
  else if code = "CHF" then "🇨🇭"
  else if code = "ZAR" then "🇿🇦"
  else "🌐"

/-- JS `Number(x.toFixed(2))`: `toFixed` is a host builtin, modelled as
round-half-up to two decimal places (no claim in this development depends on
the rounding direction at ties). -/
def round2 (x : ℚ) : ℚ :=
  ((⌊x * 100 + 1 / 2⌋ : ℤ) : ℚ) / 100

/-- `(trend[trend.length - 1] / trend[0] - 1) * 100`, rounded to 2 decimals;
both callers pass a non-empty `trend`, so the `getLastD`/`headD` defaults are
never consulted. -/
def changePctOf (trend : List ℚ) : ℚ :=
  round2 ((trend.getLastD 0 / trend.headD 0 - 1) * 100)

/-- The candidate code list of the full page `rows` useMemo:
`codes = Object.keys(rates)`, then
`if (focusCurrency && focusCurrency !== baseCurrency && !codes.includes(focusCurrency)) codes.unshift(focusCurrency)`. -/
def fullPageCodes (rates : RateSnapshot) (base focus : String) : List String :=
  if focus ≠ "" ∧ focus ≠ base ∧ focus ∉ rates.map Prod.fst
  then focus :: rates.map Prod.fst
  else rates.map Prod.fst

/-- The body of the full page `codes.forEach((code, index) => ...)`:
skip the base code, skip codes whose rate is missing or falsy (`!baseToQuote`
is true for `undefined` and `0`), otherwise build the row. -/
def mkFullRow (rates : RateSnapshot) (base focus : String) (range : RangeKey)
    (inverse : Bool) (p : ℕ × String) : Option TableRow :=
  if p.2 = base then none
  else
    match lookupRate rates p.2 with
    | none => none
    | some r =>
      if r = 0 then none
      else
        let trend := makeTrendFull range ((p.1 : ℤ) + (if inverse then 20 else 0))
        some { code := p.2, name := getName p.2, flag := flagOf p.2, rate := r,
               changePct := changePctOf trend, values := trend,
               isFocus := p.2 == focus }

/-- The `rows` useMemo of `CurrencyChartsFullPage.tsx` for a non-null `rates`
object: build rows over the enumerated candidate codes, then sort with the
focus-first comparator. -/
def rowsFull (rates : RateSnapshot) (base focus : String) (range : RangeKey)
    (inverse : Bool) : List TableRow :=
  sortRows (((fullPageCodes rates base focus).enum).filterMap
    (mkFullRow rates base focus range inverse))

/-- The `rows` useMemo of `CurrencyChartsFullPage.tsx`, including the
`if (!rates) return []` guard (`rates` is `null` until the first fetch
resolves). -/
def rowsFullPage (rates : Option RateSnapshot) (base focus : String) (range : RangeKey)
    (inverse : Bool) : List TableRow :=
  match rates with
  | none => []
  | some snap => rowsFull snap base focus range inverse

/-- The row metadata entries of `CurrencyChartsSection.tsx`. -/
structure RowMeta where
  code : String
  name : String
  flag : String

/-- The curated `ROWS` list of `CurrencyChartsSection.tsx`. -/
def ROWS : List RowMeta :=
  [⟨"USD", "US Dollar", "🇺🇸"⟩,
   ⟨"EUR", "Euro", "🇪🇺"⟩,
   ⟨"GBP", "British Pound", "🇬🇧"⟩,
   ⟨"JPY", "Japanese Yen", "🇯🇵"⟩,
   ⟨"CAD", "Canadian Dollar", "🇨🇦"⟩,
   ⟨"AUD", "Australian Dollar", "🇦🇺"⟩,
   ⟨"INR", "Indian Rupee", "🇮🇳"⟩]

/-- The `SAMPLE_RATES` demo table of `CurrencyChartsSection.tsx`
(1 USD → X units).  The rate literals are stored in reduced `Rat.mk'` form:
`0.92 = 23/25`, `0.78 = 39/50`, `151.2 = 756/5`, `1.37 = 137/100`,
`1.52 = 38/25`, `83.1 = 831/10`. -/
def SAMPLE_RATES : RateSnapshot :=
  [("USD", 1), ("EUR", Rat.mk' 23 25), ("GBP", Rat.mk' 39 50), ("JPY", Rat.mk' 756 5),
   ("CAD", Rat.mk' 137 100), ("AUD", Rat.mk' 38 25), ("INR", Rat.mk' 831 10)]

/-- `crossRate` of `CurrencyChartsSection.tsx`: fallback cross-rate through
`SAMPLE_RATES`; `!baseUsd || !quoteUsd` is true when an entry is missing or
zero. -/
def crossRate (base quote : String) : Option ℚ :=
  match lookupRate SAMPLE_RATES base, lookupRate SAMPLE_RATES quote with
  | some baseUsd, some quoteUsd =>
    if baseUsd = 0 ∨ quoteUsd = 0 then none else some (quoteUsd / baseUsd)
  | _, _ => none

/-- The candidate list of the section `rows` useMemo: start from `ROWS`,
unshift a synthetic meta for the base currency if absent, then for the focus
currency if absent (in that order, so the focus ends up first). -/
def baseAugmented (base : String) : List RowMeta :=
  if base ∈ ROWS.map RowMeta.code then ROWS else ⟨base, base, "🌐"⟩ :: ROWS

def sectionList (base focus : String) : List RowMeta :=
  if focus ∈ (baseAugmented base).map RowMeta.code then baseAugmented base
  else ⟨focus, focus, "🌐"⟩ :: baseAugmented base

/-- The body of the section `.map((row, index) => ...)` over the base-filtered
list: `rate = rates[row.code] ?? crossRate(base, row.code)`; rows with
`rate == null` are dropped (`?? ` is nullish coalescing, so an API rate of `0`
is kept). -/
def mkSectionRow (rates : RateSnapshot) (base focus : String) (range : RangeKey)
    (inverse : Bool) (p : ℕ × RowMeta) : Option TableRow :=
  match (lookupRate rates p.2.code).or (crossRate base p.2.code) with
  | none => none
  | some rate =>
    let trend := makeTrendSection range ((p.1 : ℤ) + (if inverse then 10 else 0))
    some { code := p.2.code, name := p.2.name, flag := p.2.flag, rate := rate,
           changePct := changePctOf trend, values := trend,
           isFocus := p.2.code == focus }

/-- The `rows` useMemo of `CurrencyChartsSection.tsx`: filter out the base
from the candidate list, map (with index over the filtered list), drop rows
without a resolvable rate, and sort with the focus-first comparator. -/
def rowsSection (rates : RateSnapshot) (base focus : String) (range : RangeKey)
    (inverse : Bool) : List TableRow :=
  sortRows (((((sectionList base focus).filter (fun r => r.code ≠ base))).enum).filterMap
    (mkSectionRow rates base focus range inverse))

lemma enum_map_key {α : Type} (key : α → String) (l : List α) :
    l.enum.map (fun p => key p.2) = l.map key := by
  rw [show (fun p : ℕ × α => key p.2) = key ∘ Prod.snd from rfl, ← List.map_map,
    List.enum_map_snd]

lemma snd_mem_of_mem_enum {α : Type} {l : List α} {p : ℕ × α} (h : p ∈ l.enum) : p.2 ∈ l := by
  have h2 : p.2 ∈ List.map Prod.snd l.enum := List.mem_map_of_mem _ h
  simpa [List.enum_map_snd] using h2

/-- In a row list built by `filterMap` from enumerated candidates whose
produced row code equals the candidate key, distinct candidate keys give
distinct row codes. -/
lemma filterMap_codes_nodup {α : Type} (key : α → String) (f : ℕ × α → Option TableRow)
    (hf : ∀ p b, f p = some b → b.code = key p.2) :
    ∀ l : List (ℕ × α), (l.map fun p => key p.2).Nodup →
      ((l.filterMap f).map TableRow.code).Nodup := by
  intro l
  induction l with
  | nil => intro _; simp
  | cons p l ih =>
    intro hnd
    simp only [List.map_cons, List.nodup_cons] at hnd
    rw [List.filterMap_cons]
    cases hfp : f p with
    | none => exact ih hnd.2
    | some b =>
      simp only [List.map_cons, List.nodup_cons]
      refine ⟨?_, ih hnd.2⟩
      intro hmem
      rcases List.mem_map.mp hmem with ⟨row, hrow, hcode⟩
      rcases List.mem_filterMap.mp hrow with ⟨q, hq, hfq⟩
      have h1 : row.code = key q.2 := hf q row hfq
      have h2 : b.code = key p.2 := hf p b hfp
      have hmem2 : key q.2 ∈ List.map (fun r : ℕ × α => key r.2) l :=
        List.mem_map_of_mem _ hq
      rw [← h1, hcode, h2] at hmem2
      exact hnd.1 hmem2

/-- Counting focus rows in a `filterMap`-built row list: when every candidate
whose key is the focus code survives, the focus-row count equals the number of
candidates keyed by the focus code. -/
lemma countP_isFocus_filterMap {α : Type} (key : α → String) (f : ℕ × α → Option TableRow)
    (focus : String) (l : List (ℕ × α))
    (hfoc : ∀ p b, f p = some b → b.isFocus = (key p.2 == focus))
    (hsurv : ∀ p ∈ l, key p.2 = focus → (f p).isSome = true) :
    (l.filterMap f).countP TableRow.isFocus = l.countP (fun p => key p.2 == focus) := by
  rw [List.countP_filterMap]
  refine List.countP_congr ?_
  intro p hp
  cases hfp : f p with
  | none =>
    have hne : key p.2 ≠ focus := by
      intro heq
      have hsome := hsurv p hp heq
      rw [hfp] at hsome
      simp at hsome
    simp [hne]
  | some b =>
    simp [hfoc p b hfp]

lemma countP_key_eq_one {α : Type} (key : α → String) (focus : String) (l : List (ℕ × α))
    (hnd : (l.map fun p => key p.2).Nodup) (hmem : focus ∈ l.map fun p => key p.2) :
    l.countP (fun p => key p.2 == focus) = 1 := by
  have h1 : l.countP (fun p => key p.2 == focus) =
      (l.map fun p => key p.2).countP (fun s => s == focus) := by
    rw [List.countP_map]
    rfl
  rw [h1, ← List.count_eq_countP]
  exact List.count_eq_one_of_mem hnd hmem

/-- In a comparator-sorted row list containing exactly one focus row, that
row is first. -/
lemma sorted_one_focus_head (l : List TableRow)
    (hs : List.Pairwise (fun a b => rowLe a b = true) l)
    (hc : l.countP TableRow.isFocus = 1) :
    ∃ hd tl, l = hd :: tl ∧ hd.isFocus = true ∧ tl.countP TableRow.isFocus = 0 := by
  cases l with
  | nil => simp [List.countP_nil] at hc
  | cons hd tl =>
    rw [List.countP_cons] at hc
    cases hfd : hd.isFocus with
    | true =>
      refine ⟨hd, tl, rfl, hfd, ?_⟩
      rw [hfd, if_pos rfl] at hc
      omega
    | false =>
      exfalso
      rw [hfd] at hc
      simp only [Bool.false_eq_true, if_false, add_zero] at hc
      rcases List.countP_pos.mp (by rw [hc]; norm_num) with ⟨x, hx, hfx⟩
      have hle : rowLe hd x = true := (List.pairwise_cons.mp hs).1 x hx
      unfold rowLe at hle
      simp [hfd, hfx] at hle

/-- In a comparator-sorted row list with pairwise-distinct codes, the
non-focus rows are in strictly ascending code order. -/
lemma sorted_nonfocus_strict (l : List TableRow)
    (hs : List.Pairwise (fun a b => rowLe a b = true) l)
    (hnd : (l.map TableRow.code).Nodup) :
    List.Pairwise (fun a b => a.code < b.code)
      (l.filter (fun r => !r.isFocus)) := by
  have hne : List.Pairwise (fun a b : TableRow => a.code ≠ b.code) l :=
    List.pairwise_map.mp hnd
  have hfil := (hs.and hne).filter (fun r => !r.isFocus)
  refine List.Pairwise.imp_of_mem ?_ hfil
  intro a b ha hb hab
  have hfa : a.isFocus = false := by
    have := (List.mem_filter.mp ha).2
    simpa using this
  have hfb : b.isFocus = false := by
    have := (List.mem_filter.mp hb).2
    simpa using this
  have hle : rowLe a b = true := hab.1
  unfold rowLe at hle
  rw [hfa, hfb] at hle
  simp at hle
  exact lt_of_le_of_ne ((strLtb_false_iff _ _).mp (by simpa using hle)) hab.2

lemma mkFullRow_code (rates : RateSnapshot) (base focus : String) (range : RangeKey)
    (inverse : Bool) (p : ℕ × String) (b : TableRow)
    (h : mkFullRow rates base focus range inverse p = some b) : b.code = p.2 := by
  unfold mkFullRow at h
  split at h
  · simp at h
  · split at h
    · simp at h
    · split at h
      · simp at h
      · cases h
        rfl

lemma mkFullRow_isFocus (rates : RateSnapshot) (base focus : String) (range : RangeKey)
    (inverse : Bool) (p : ℕ × String) (b : TableRow)
    (h : mkFullRow rates base focus range inverse p = some b) : b.isFocus = (p.2 == focus) := by
  unfold mkFullRow at h
  split at h
  · simp at h
  · split at h
    · simp at h
    · split at h
      · simp at h
      · cases h
        rfl

lemma mkFullRow_ne_base (rates : RateSnapshot) (base focus : String) (range : RangeKey)
    (inverse : Bool) (p : ℕ × String) (b : TableRow)
    (h : mkFullRow rates base focus range inverse p = some b) : p.2 ≠ base := by
  unfold mkFullRow at h
  split at h
  · simp at h
  · assumption

lemma mkFullRow_isSome (rates : RateSnapshot) (base focus : String) (range : RangeKey)
    (inverse : Bool) (p : ℕ × String) (r : ℚ) (hb : p.2 ≠ base)
    (hl : lookupRate rates p.2 = some r) (hr : r ≠ 0) :
    (mkFullRow rates base focus range inverse p).isSome = true := by
  unfold mkFullRow
  rw [if_neg hb, hl]
  simp [hr]

lemma mkFullRow_lookup_none (rates : RateSnapshot) (base focus : String) (range : RangeKey)
    (inverse : Bool) (p : ℕ × String) (h : lookupRate rates p.2 = none) :
    mkFullRow rates base focus range inverse p = none := by
  unfold mkFullRow
  split
  · rfl
  · rw [h]

lemma mkSectionRow_code (rates : RateSnapshot) (base focus : String) (range : RangeKey)
    (inverse : Bool) (p : ℕ × RowMeta) (b : TableRow)
    (h : mkSectionRow rates base focus range inverse p = some b) : b.code = p.2.code := by
  unfold mkSectionRow at h
  split at h
  · simp at h
  · cases h
    rfl

lemma mkSectionRow_rate (rates : RateSnapshot) (base focus : String) (range : RangeKey)
    (inverse : Bool) (p : ℕ × RowMeta) (b : TableRow)
    (h : mkSectionRow rates base focus range inverse p = some b) :
    (lookupRate rates p.2.code).or (crossRate base p.2.code) = some b.rate := by
  unfold mkSectionRow at h
  split at h
  · simp at h
  · next heq =>
    cases h
    exact heq

lemma mkSectionRow_isFocus (rates : RateSnapshot) (base focus : String) (range : RangeKey)
    (inverse : Bool) (p : ℕ × RowMeta) (b : TableRow)
    (h : mkSectionRow rates base focus range inverse p = some b) :
    b.isFocus = (p.2.code == focus) := by
  unfold mkSectionRow at h
  split at h
  · simp at h
  · cases h
    rfl

lemma mkSectionRow_isSome (rates : RateSnapshot) (base focus : String) (range : RangeKey)
    (inverse : Bool) (p : ℕ × RowMeta) (r : ℚ)
    (hl : lookupRate rates p.2.code = some r) :
    (mkSectionRow rates base focus range inverse p).isSome = true := by
  simp [mkSectionRow, hl]

lemma crossRate_base_none {base : String} (h : lookupRate SAMPLE_RATES base = none)
    (quote : String) : crossRate base quote = none := by
  cases hq : lookupRate SAMPLE_RATES quote <;> simp [crossRate, h, hq]

lemma mkSectionRow_none (rates : RateSnapshot) (base focus : String) (range : RangeKey)
    (inverse : Bool) (p : ℕ × RowMeta) (h1 : lookupRate rates p.2.code = none)
    (h2 : crossRate base p.2.code = none) :
    mkSectionRow rates base focus range inverse p = none := by
  simp [mkSectionRow, h1, h2]

lemma fullPageCodes_nodup (rates : RateSnapshot) (base focus : String)
    (hnd : (rates.map Prod.fst).Nodup) : (fullPageCodes rates base focus).Nodup := by
  unfold fullPageCodes
  split
  · next h => exact List.nodup_cons.mpr ⟨h.2.2, hnd⟩
  · exact hnd

lemma focus_mem_fullPageCodes (rates : RateSnapshot) (base focus : String)
    (hfe : focus ≠ "") (hfb : focus ≠ base) : focus ∈ fullPageCodes rates base focus := by
  unfold fullPageCodes
  split
  · exact List.mem_cons_self _ _
  · next h =>
    push_neg at h
    exact h hfe hfb

lemma ROWS_codes_nodup : (ROWS.map RowMeta.code).Nodup := by
  decide

lemma baseAugmented_codes_nodup (base : String) :
    ((baseAugmented base).map RowMeta.code).Nodup := by
  unfold baseAugmented
  split
  · exact ROWS_codes_nodup
  · next h =>
    simp only [List.map_cons]
    exact List.nodup_cons.mpr ⟨h, ROWS_codes_nodup⟩

lemma sectionList_codes_nodup (base focus : String) :
    ((sectionList base focus).map RowMeta.code).Nodup := by
  unfold sectionList
  split
  · exact baseAugmented_codes_nodup base
  · next h =>
    simp only [List.map_cons]
    exact List.nodup_cons.mpr ⟨h, baseAugmented_codes_nodup base⟩

lemma focus_mem_sectionList (base focus : String) :
    focus ∈ (sectionList base focus).map RowMeta.code := by
  unfold sectionList
  split
  · assumption
  · simp only [List.map_cons]
    exact List.mem_cons_self _ _

lemma focus_mem_sectionFiltered (base focus : String) (hfb : focus ≠ base) :
    focus ∈ ((sectionList base focus).filter fun r => r.code ≠ base).map RowMeta.code := by
  rcases List.mem_map.mp (focus_mem_sectionList base focus) with ⟨m, hm, hcode⟩
  refine List.mem_map.mpr ⟨m, List.mem_filter.mpr ⟨hm, ?_⟩, hcode⟩
  simp [hcode, hfb]

lemma rowsFull_pre_codes_nodup (rates : RateSnapshot) (base focus : String) (range : RangeKey)
    (inverse : Bool) (hnd : (rates.map Prod.fst).Nodup) :
    (((fullPageCodes rates base focus).enum.filterMap
      (mkFullRow rates base focus range inverse)).map TableRow.code).Nodup := by
  refine filterMap_codes_nodup (fun s => s) _
    (fun p b h => mkFullRow_code rates base focus range inverse p b h) _ ?_
  have h3 : ((fullPageCodes rates base focus).enum.map Prod.snd).Nodup := by
    rw [List.enum_map_snd]
    exact fullPageCodes_nodup rates base focus hnd
  exact h3

lemma rowsSection_pre_codes_nodup (rates : RateSnapshot) (base focus : String)
    (range : RangeKey) (inverse : Bool) :
    ((((sectionList base focus).filter fun r => r.code ≠ base).enum.filterMap
      (mkSectionRow rates base focus range inverse)).map TableRow.code).Nodup := by
  refine filterMap_codes_nodup RowMeta.code _
    (fun p b h => mkSectionRow_code rates base focus range inverse p b h) _ ?_
  rw [enum_map_key RowMeta.code]
  exact List.Nodup.sublist (List.Sublist.map _ (List.filter_sublist _))
    (sectionList_codes_nodup base focus)

/-- **C6** — For every projection (with a proper rate map: no duplicate keys),
no output row's code equals the supplied base currency, and the rows other
than the focus row appear in strictly ascending lexicographic order by
currency code.  Proved for the `rows` computations of both pages. -/
theorem c6_no_base_row_sorted (snap : RateSnapshot) (base focus : String)
    (range : RangeKey) (inverse : Bool) (hnd : (snap.map Prod.fst).Nodup) :
    ((∀ r ∈ rowsFullPage (some snap) base focus range inverse, r.code ≠ base) ∧
      List.Pairwise (fun a b => a.code < b.code)
        ((rowsFullPage (some snap) base focus range inverse).filter (fun r => !r.isFocus))) ∧
    ((∀ r ∈ rowsSection snap base focus range inverse, r.code ≠ base) ∧
      List.Pairwise (fun a b => a.code < b.code)
        ((rowsSection snap base focus range inverse).filter (fun r => !r.isFocus))) := by
  constructor
  · constructor
    · intro r hr
      have hr2 : r ∈ (fullPageCodes snap base focus).enum.filterMap
          (mkFullRow snap base focus range inverse) :=
        (sortRows_perm _).mem_iff.mp hr
      rcases List.mem_filterMap.mp hr2 with ⟨p, _, hfp⟩
      rw [mkFullRow_code snap base focus range inverse p r hfp]
      exact mkFullRow_ne_base snap base focus range inverse p r hfp
    · refine sorted_nonfocus_strict _ (sortRows_sorted _) ?_
      exact ((sortRows_perm _).map TableRow.code).nodup_iff.mpr
        (rowsFull_pre_codes_nodup snap base focus range inverse hnd)
  · constructor
    · intro r hr
      have hr2 : r ∈ ((sectionList base focus).filter fun m => m.code ≠ base).enum.filterMap
          (mkSectionRow snap base focus range inverse) :=
        (sortRows_perm _).mem_iff.mp hr
      rcases List.mem_filterMap.mp hr2 with ⟨p, hp, hfp⟩
      rw [mkSectionRow_code snap base focus range inverse p r hfp]
      have hmem : p.2 ∈ (sectionList base focus).filter fun m => m.code ≠ base :=
        snd_mem_of_mem_enum hp
      have := (List.mem_filter.mp hmem).2
      simpa using this
    · refine sorted_nonfocus_strict _ (sortRows_sorted _) ?_
      exact ((sortRows_perm _).map TableRow.code).nodup_iff.mpr
        (rowsSection_pre_codes_nodup snap base focus range inverse)

/-- Witness for `c6_no_base_row_sorted` at a concrete snapshot. -/
theorem c6_no_base_row_sorted_witness :
    (([("INR", Rat.mk' 831 10), ("EUR", Rat.mk' 23 25)] : RateSnapshot).map Prod.fst).Nodup ∧
    (((∀ r ∈ rowsFullPage (some [("INR", Rat.mk' 831 10), ("EUR", Rat.mk' 23 25)])
          "USD" "INR" RangeKey.h24 false, r.code ≠ "USD") ∧
      List.Pairwise (fun a b => a.code < b.code)
        ((rowsFullPage (some [("INR", Rat.mk' 831 10), ("EUR", Rat.mk' 23 25)])
          "USD" "INR" RangeKey.h24 false).filter (fun r => !r.isFocus))) ∧
    ((∀ r ∈ rowsSection [("INR", Rat.mk' 831 10), ("EUR", Rat.mk' 23 25)]
          "USD" "INR" RangeKey.h24 false, r.code ≠ "USD") ∧
      List.Pairwise (fun a b => a.code < b.code)
        ((rowsSection [("INR", Rat.mk' 831 10), ("EUR", Rat.mk' 23 25)]
          "USD" "INR" RangeKey.h24 false).filter (fun r => !r.isFocus)))) :=
  ⟨by decide, c6_no_base_row_sorted [("INR", Rat.mk' 831 10), ("EUR", Rat.mk' 23 25)]
    "USD" "INR" RangeKey.h24 false (by decide)⟩

/-- **C1**, counterexample — the claim asserts that whenever the focus
currency is non-empty and differs from the base, exactly one output row has
`focus = true`.  But the full page drops the forcibly-included focus code
again when the snapshot has no rate for it (`if (!baseToQuote) return`), so
with `base = "USD"`, `focus = "INR"` and a snapshot containing only `EUR`,
no row is a focus row at all. -/
theorem c1_counterexample :
    ("INR" : String) ≠ "" ∧ ("INR" : String) ≠ "USD" ∧
    (rowsFullPage (some [("EUR", Rat.mk' 23 25)]) "USD" "INR" RangeKey.h24 false).countP
      TableRow.isFocus = 0 ∧
    (rowsFullPage (some [("EUR", Rat.mk' 23 25)]) "USD" "INR" RangeKey.h24 false).length = 1 := by
  decide

/-- **C1**, amended — if additionally the snapshot resolves a non-zero rate
for the focus currency, then the claim holds: exactly one row of the full
page projection has `focus = true` and it is the first row.  The section
projection satisfies the same property whenever the fetched snapshot has any
rate for the focus code (it keeps zero rates). -/
theorem c1_amended (snap : RateSnapshot) (base focus : String) (range : RangeKey)
    (inverse : Bool) (hnd : (snap.map Prod.fst).Nodup) (hfe : focus ≠ "")
    (hfb : focus ≠ base) (r : ℚ) (hr : lookupRate snap focus = some r) (hr0 : r ≠ 0) :
    (∃ hd tl, rowsFullPage (some snap) base focus range inverse = hd :: tl ∧
      hd.isFocus = true ∧ tl.countP TableRow.isFocus = 0) ∧
    (∃ hd tl, rowsSection snap base focus range inverse = hd :: tl ∧
      hd.isFocus = true ∧ tl.countP TableRow.isFocus = 0) := by
  constructor
  · have hcount : ((fullPageCodes snap base focus).enum.filterMap
        (mkFullRow snap base focus range inverse)).countP TableRow.isFocus = 1 := by
      rw [countP_isFocus_filterMap (fun s => s) _ focus _
        (fun p b h => mkFullRow_isFocus snap base focus range inverse p b h) ?_]
      · refine countP_key_eq_one (fun s => s) focus _ ?_ ?_
        · have h3 : ((fullPageCodes snap base focus).enum.map Prod.snd).Nodup := by
            rw [List.enum_map_snd]
            exact fullPageCodes_nodup snap base focus hnd
          exact h3
        · have h4 : focus ∈ (fullPageCodes snap base focus).enum.map Prod.snd := by
            rw [List.enum_map_snd]
            exact focus_mem_fullPageCodes snap base focus hfe hfb
          exact h4
      · intro p _ hp
        have hp2 : p.2 = focus := hp
        refine mkFullRow_isSome snap base focus range inverse p r ?_ ?_ hr0
        · rw [hp2]; exact hfb
        · rw [hp2]; exact hr
    have hsorted := sortRows_sorted ((fullPageCodes snap base focus).enum.filterMap
      (mkFullRow snap base focus range inverse))
    have hcount2 : (rowsFullPage (some snap) base focus range inverse).countP
        TableRow.isFocus = 1 := by
      show (sortRows _).countP TableRow.isFocus = 1
      rw [(sortRows_perm _).countP_eq]
      exact hcount
    exact sorted_one_focus_head _ hsorted hcount2
  · have hcount : ((((sectionList base focus).filter fun m => m.code ≠ base).enum.filterMap
        (mkSectionRow snap base focus range inverse))).countP TableRow.isFocus = 1 := by
      rw [countP_isFocus_filterMap RowMeta.code _ focus _
        (fun p b h => mkSectionRow_isFocus snap base focus range inverse p b h) ?_]
      · refine countP_key_eq_one RowMeta.code focus _ ?_ ?_
        · rw [enum_map_key RowMeta.code]
          exact List.Nodup.sublist (List.Sublist.map _ (List.filter_sublist _))
            (sectionList_codes_nodup base focus)
        · rw [enum_map_key RowMeta.code]
          exact focus_mem_sectionFiltered base focus hfb
      · intro p _ hp
        refine mkSectionRow_isSome snap base focus range inverse p r ?_
        rw [hp]
        exact hr
    have hcount2 : (rowsSection snap base focus range inverse).countP TableRow.isFocus = 1 := by
      show (sortRows _).countP TableRow.isFocus = 1
      rw [(sortRows_perm _).countP_eq]
      exact hcount
    exact sorted_one_focus_head _ (sortRows_sorted _) hcount2

/-- Witness for `c1_amended` at a concrete snapshot containing the focus. -/
theorem c1_amended_witness :
    ((([("INR", Rat.mk' 831 10), ("EUR", Rat.mk' 23 25)] : RateSnapshot).map Prod.fst).Nodup ∧
      ("INR" : String) ≠ "" ∧ ("INR" : String) ≠ "USD" ∧
      lookupRate [("INR", Rat.mk' 831 10), ("EUR", Rat.mk' 23 25)] "INR" =
        some (Rat.mk' 831 10) ∧ (Rat.mk' 831 10 : ℚ) ≠ 0) ∧
    ((∃ hd tl, rowsFullPage (some [("INR", Rat.mk' 831 10), ("EUR", Rat.mk' 23 25)])
        "USD" "INR" RangeKey.h24 false = hd :: tl ∧
      hd.isFocus = true ∧ tl.countP TableRow.isFocus = 0) ∧
    (∃ hd tl, rowsSection [("INR", Rat.mk' 831 10), ("EUR", Rat.mk' 23 25)]
        "USD" "INR" RangeKey.h24 false = hd :: tl ∧
      hd.isFocus = true ∧ tl.countP TableRow.isFocus = 0)) :=
  ⟨⟨by decide, by decide, by decide, by decide, by decide⟩,
    c1_amended [("INR", Rat.mk' 831 10), ("EUR", Rat.mk' 23 25)] "USD" "INR" RangeKey.h24
      false (by decide) (by decide) (by decide) (Rat.mk' 831 10) (by decide) (by decide)⟩

/-- **C3**, counterexample — the claim asserts that projecting an *empty*
snapshot yields an empty output for every base/focus/range.  That holds for
the full page, but `CurrencyChartsSection` falls back to `crossRate` over
`SAMPLE_RATES` when the fetched map has no entry, so with `base = "USD"` and
an empty snapshot it still emits the six curated non-base rows. -/
theorem c3_counterexample :
    (rowsSection [] "USD" "INR" RangeKey.h24 false).length = 6 ∧
    0 < (rowsSection [] "USD" "INR" RangeKey.h24 false).length := by
  decide

/-- **C3**, amended — projecting an empty snapshot yields an empty output for
the full-page projection, unconditionally: for *every* base, focus, range and
display mode.  The section projection yields an empty output for an empty
snapshot exactly under the extra condition that the base currency has no
`SAMPLE_RATES` entry (otherwise its sample cross-rate fallback still produces
rows, as `c3_counterexample` shows for `base = "USD"`). -/
theorem c3_amended (base focus : String) (range : RangeKey) (inverse : Bool) :
    rowsFullPage (some []) base focus range inverse = [] ∧
    (lookupRate SAMPLE_RATES base = none → rowsSection [] base focus range inverse = []) := by
  constructor
  · show sortRows ((fullPageCodes [] base focus).enum.filterMap
      (mkFullRow [] base focus range inverse)) = []
    rw [List.filterMap_eq_nil.mpr fun p _ =>
      mkFullRow_lookup_none [] base focus range inverse p rfl]
    rfl
  · intro hbase
    show sortRows ((((sectionList base focus).filter fun m => m.code ≠ base)).enum.filterMap
      (mkSectionRow [] base focus range inverse)) = []
    rw [List.filterMap_eq_nil.mpr fun p _ =>
      mkSectionRow_none [] base focus range inverse p rfl (crossRate_base_none hbase _)]
    rfl

/-- Witness for `c3_amended`: the unconditional full-page conjunct at
`base = "USD"` (a base the original claim is about), and the conditional
section conjunct at `base = "BTC"`, which has no sample rate. -/
theorem c3_amended_witness :
    rowsFullPage (some []) "USD" "INR" RangeKey.h24 false = [] ∧
    lookupRate SAMPLE_RATES "BTC" = none ∧
    rowsSection [] "BTC" "INR" RangeKey.h24 false = [] :=
  ⟨(c3_amended "USD" "INR" RangeKey.h24 false).1, by decide,
    (c3_amended "BTC" "INR" RangeKey.h24 false).2 (by decide)⟩

/-- **C7**, counterexample — with `base = "USD"`, `focus = "INR"`,
snapshot `{"INR": 83.1, "EUR": 0.92}` and range `24H`, the claim asserts
exactly 2 output rows.  The section projection instead yields 6 rows: its
curated list plus the `crossRate` fallback keeps `GBP`, `JPY`, `CAD` and
`AUD` even though they are absent from the snapshot. -/
theorem c7_counterexample :
    (rowsSection [("INR", (831 : ℚ) / 10), ("EUR", (92 : ℚ) / 100)]
      "USD" "INR" RangeKey.h24 false).length = 6 ∧
    (rowsSection [("INR", (831 : ℚ) / 10), ("EUR", (92 : ℚ) / 100)]
      "USD" "INR" RangeKey.h24 false).length ≠ 2 := by
  decide

/-- **C7**, amended — for the full-page projection the scenario holds exactly:
`base = "USD"`, `focus = "INR"`, snapshot `{"INR": 83.1, "EUR": 0.92}`,
range `24H` produces exactly 2 rows, the first with code `"INR"`,
`focus = true`, rate `83.1`, the second with code `"EUR"`, `focus = false`,
rate `0.92`. -/
theorem c7_amended :
    (rowsFullPage (some [("INR", (831 : ℚ) / 10), ("EUR", (92 : ℚ) / 100)])
      "USD" "INR" RangeKey.h24 false).length = 2 ∧
    ((rowsFullPage (some [("INR", (831 : ℚ) / 10), ("EUR", (92 : ℚ) / 100)])
      "USD" "INR" RangeKey.h24 false).get? 0).map (fun r => (r.code, r.isFocus, r.rate)) =
      some ("INR", true, (831 : ℚ) / 10) ∧
    ((rowsFullPage (some [("INR", (831 : ℚ) / 10), ("EUR", (92 : ℚ) / 100)])
      "USD" "INR" RangeKey.h24 false).get? 1).map (fun r => (r.code, r.isFocus, r.rate)) =
      some ("EUR", false, (92 : ℚ) / 100) := by
  have h1 : (831 : ℚ) / 10 = Rat.mk' 831 10 := by
    rw [Rat.mk'_eq_divInt, Rat.divInt_eq_div]
    norm_num
  have h2 : (92 : ℚ) / 100 = Rat.mk' 23 25 := by
    rw [Rat.mk'_eq_divInt, Rat.divInt_eq_div]
    norm_num
  rw [h1, h2]
  decide

/-- A parsed JSON value, as far as `loadAlerts` distinguishes one: an array
(with its elements) or any non-array value (`Array.isArray` is the only
inspection performed). -/
inductive Json where
  | arr : List Json → Json
  | nonArray : Json

/-- `loadAlerts` of `GetAlertsSection.tsx`:

```js
try {
  const raw = localStorage.getItem(ALERTS_KEY);
  if (!raw) return [];
  const parsed = JSON.parse(raw);
  return Array.isArray(parsed) ? parsed : [];
} catch { return []; }
```

`stored` is the value under the alerts key (`none` when missing); the host
builtin `JSON.parse` is the `jsonParse` parameter, with a thrown exception
modelled as `Except.error`.  `!raw` is true both for a missing key and for
the empty string.  The `try/catch` makes the function total: every failure
path returns `[]`. -/
def loadAlerts (jsonParse : String → Except Unit Json) (stored : Option String) : List Json :=
  match stored with
  | none => []
  | some raw =>
    if raw = "" then []
    else
      match jsonParse raw with
      | Except.error _ => []
      | Except.ok (Json.arr xs) => xs
      | Except.ok Json.nonArray => []

/-- **C8** — for every possible persisted value under the alerts key, the
alert-load operation never throws (it is a total function here): it returns
the parsed list when the stored string parses as a JSON array, and the empty
list when the value is missing, fails to parse, or parses to a non-array.
The single hypothesis states the one fact about the host parser that the
embedding needs: `JSON.parse("")` throws. -/
theorem c8_load_alerts_total (jsonParse : String → Except Unit Json) (stored : Option String)
    (hempty : jsonParse "" = Except.error ()) :
    (stored = none → loadAlerts jsonParse stored = []) ∧
    (∀ raw xs, stored = some raw → jsonParse raw = Except.ok (Json.arr xs) →
      loadAlerts jsonParse stored = xs) ∧
    (∀ raw e, stored = some raw → jsonParse raw = Except.error e →
      loadAlerts jsonParse stored = []) ∧
    (∀ raw, stored = some raw → jsonParse raw = Except.ok Json.nonArray →
      loadAlerts jsonParse stored = []) := by
  refine ⟨?_, ?_, ?_, ?_⟩
  · rintro rfl
    rfl
  · rintro raw xs rfl hparse
    by_cases hr : raw = ""
    · rw [hr] at hparse
      rw [hempty] at hparse
      cases hparse
    · simp [loadAlerts, hr, hparse]
  · rintro raw e rfl hparse
    by_cases hr : raw = ""
    · simp [loadAlerts, hr]
    · simp [loadAlerts, hr, hparse]
  · rintro raw rfl hparse
    by_cases hr : raw = ""
    · simp [loadAlerts, hr]
    · simp [loadAlerts, hr, hparse]

/-- Witness for `c8_load_alerts_total` with a concrete stub parser mapping
`"[]"` to the empty JSON array and everything else to a parse error. -/
theorem c8_load_alerts_total_witness :
    ((fun s => if s = "[]" then Except.ok (Json.arr []) else Except.error ()) ""
        = Except.error ()) ∧
    ((some "[]" = none →
        loadAlerts (fun s => if s = "[]" then Except.ok (Json.arr []) else Except.error ())
          (some "[]") = []) ∧
      (∀ raw xs, some "[]" = some raw →
        (fun s => if s = "[]" then Except.ok (Json.arr []) else Except.error ()) raw
          = Except.ok (Json.arr xs) →
        loadAlerts (fun s => if s = "[]" then Except.ok (Json.arr []) else Except.error ())
          (some "[]") = xs) ∧
      (∀ raw e, some "[]" = some raw →
        (fun s => if s = "[]" then Except.ok (Json.arr []) else Except.error ()) raw
          = Except.error e →
        loadAlerts (fun s => if s = "[]" then Except.ok (Json.arr []) else Except.error ())
          (some "[]") = []) ∧
      (∀ raw, some "[]" = some raw →
        (fun s => if s = "[]" then Except.ok (Json.arr []) else Except.error ()) raw
          = Except.ok Json.nonArray →
        loadAlerts (fun s => if s = "[]" then Except.ok (Json.arr []) else Except.error ())
          (some "[]") = [])) :=
  ⟨by simp, c8_load_alerts_total _ (some "[]") (by simp)⟩

/-- JS `s.trim() === ""`: true iff every character of `s` is whitespace
(`String.prototype.trim` only matters here through the emptiness of its
result, so it is modelled character-wise). -/
def jsTrimEmpty (s : String) : Bool :=
  s.data.all Char.isWhitespace

/-- JS `s.includes(c)` for the single-character needles used by the form
validation. -/
def jsIncludesChar (s : String) (c : Char) : Bool :=
  s.data.contains c

/-- `validateForm` of `GetAlertsSection.tsx`, returning the error message set
by the first failing check, or `none` when the form validates.  The host
conversion `Number(targetRate)` is the `parseNumber` parameter; it returns
`none` when the result is not a finite number (`!Number.isFinite(t)`). -/
def validateForm (parseNumber : String → Option ℚ)
    (fromCurrency toCurrency targetRate email : String) : Option String :=
  if fromCurrency = "" ∨ toCurrency = "" then some "Please select both currencies."
  else if fromCurrency = toCurrency then some "From and To currencies should be different."
  else if jsTrimEmpty targetRate then some "Please enter a target rate."
  else
    match parseNumber targetRate with
    | none => some "Target rate must be a positive number."
    | some t =>
      if t ≤ 0 then some "Target rate must be a positive number."
      else if jsTrimEmpty email then some "Please enter an email for the alert."
      else if jsIncludesChar email '@' = false ∨ jsIncludesChar email '.' = false then
        some "Please enter a valid email address."
      else none

/-- **C10** — with both currencies selected and distinct and a positive
finite target rate, the alert form validates if and only if the email's
trimmed value is non-empty and the raw string contains at least one `@` and
at least one `.`; no further shape checking is performed (so `"a@."` passes
and the alert is saved). -/
theorem c10_email_validation (parseNumber : String → Option ℚ)
    (fromCurrency toCurrency targetRate email : String) (t : ℚ)
    (hf : fromCurrency ≠ "") (ht : toCurrency ≠ "") (hne : fromCurrency ≠ toCurrency)
    (htr : jsTrimEmpty targetRate = false) (hp : parseNumber targetRate = some t)
    (hpos : 0 < t) :
    validateForm parseNumber fromCurrency toCurrency targetRate email = none ↔
      (jsTrimEmpty email = false ∧ jsIncludesChar email '@' = true ∧
        jsIncludesChar email '.' = true) := by
  unfold validateForm
  rw [if_neg (by simp [hf, ht]), if_neg hne, if_neg (by simp [htr]), hp]
  have hnle : ¬ t ≤ 0 := not_le.mpr hpos
  by_cases h1 : jsTrimEmpty email
  · simp [h1, hnle]
  · by_cases h2 : jsIncludesChar email '@' = false ∨ jsIncludesChar email '.' = false
    · rcases h2 with h2 | h2 <;> simp [h1, h2, hnle]
    · push_neg at h2
      simp [h1, h2.1, h2.2, hnle]

/-- Witness for `c10_email_validation` at the email `"a@."`. -/
theorem c10_email_validation_witness :
    (("USD" : String) ≠ "" ∧ ("INR" : String) ≠ "" ∧ ("USD" : String) ≠ "INR" ∧
      jsTrimEmpty "83" = false ∧
      (fun _ : String => some (83 : ℚ)) "83" = some 83 ∧ (0 : ℚ) < 83) ∧
    (validateForm (fun _ => some (83 : ℚ)) "USD" "INR" "83" "a@." = none ↔
      (jsTrimEmpty "a@." = false ∧ jsIncludesChar "a@." '@' = true ∧
        jsIncludesChar "a@." '.' = true)) :=
  ⟨⟨by decide, by decide, by decide, by decide, rfl, by norm_num⟩,
    c10_email_validation _ "USD" "INR" "83" "a@." 83 (by decide) (by decide) (by decide)
      (by decide) rfl (by norm_num)⟩

/-- State of the rate-fetching effect shared by both chart pages.  Each run of
the `useEffect` body is one *generation*: the effect re-runs when
`baseCurrency` changes, and its cleanup sets the previous run's `cancelled`
flag, so a run's `cancelled` flag is `false` exactly when its generation is
the latest one.  `issued` records every request ever started (generation and
the base it was issued for); `displayed` is the `rates` state, tagged with
the base currency its snapshot was fetched for. -/
structure FetchState where
  curBase : String
  gen : ℕ
  issued : List (ℕ × String)
  displayed : Option (String × RateSnapshot)

/-- Events of the fetch system: the user changes the base currency (the
effect cleanup cancels the in-flight run and a new run starts a new request),
or a network response for request generation `g`, issued for base `b`,
resolves with snapshot `snap`. -/
inductive FetchEv where
  | changeBase : String → FetchEv
  | resolve : ℕ → String → RateSnapshot → FetchEv

/-- Initial state on mount: the first effect run issues generation 0 for the
initial base; nothing is displayed yet. -/
def fetchInit (b0 : String) : FetchState :=
  ⟨b0, 0, [(0, b0)], none⟩

/-- One step of the fetch system.  A `resolve` applies its snapshot only if
the pair was actually issued and its generation is still current — the
membership guard says responses only arrive for requests that were sent, and
`g = s.gen` is the `if (cancelled) return` check at resolution time. -/
def fetchStep (s : FetchState) : FetchEv → FetchState
  | FetchEv.changeBase b =>
    { curBase := b, gen := s.gen + 1, issued := (s.gen + 1, b) :: s.issued,
      displayed := s.displayed }
  | FetchEv.resolve g b snap =>
    if (g, b) ∈ s.issued ∧ g = s.gen then { s with displayed := some (b, snap) } else s

/-- Run the fetch system from mount over a list of events. -/
def fetchRun (b0 : String) (evs : List FetchEv) : FetchState :=
  evs.foldl fetchStep (fetchInit b0)

/-- Invariant: issued generations never exceed the current one, and the
request of the current generation was issued for the current base. -/
def FetchInv (s : FetchState) : Prop :=
  (∀ p ∈ s.issued, p.1 ≤ s.gen) ∧ (∀ p ∈ s.issued, p.1 = s.gen → p.2 = s.curBase)

lemma fetchInv_init (b0 : String) : FetchInv (fetchInit b0) := by
  constructor
  · intro p hp
    simp only [fetchInit, List.mem_singleton] at hp
    subst hp
    exact Nat.le_refl _
  · intro p hp _
    simp only [fetchInit, List.mem_singleton] at hp
    subst hp
    rfl

lemma fetchInv_step (s : FetchState) (ev : FetchEv) (h : FetchInv s) :
    FetchInv (fetchStep s ev) := by
  cases ev with
  | changeBase b =>
    refine ⟨?_, ?_⟩
    · intro p hp
      rcases List.mem_cons.mp hp with rfl | hp2
      · exact Nat.le_refl _
      · exact Nat.le_succ_of_le (h.1 p hp2)
    · intro p hp hg
      rcases List.mem_cons.mp hp with rfl | hp2
      · rfl
      · have h1 := h.1 p hp2
        have hg2 : p.1 = s.gen + 1 := hg
        omega
  | resolve g b snap =>
    by_cases hc : (g, b) ∈ s.issued ∧ g = s.gen
    · have heq : fetchStep s (FetchEv.resolve g b snap) =
          { s with displayed := some (b, snap) } := by
        show (if (g, b) ∈ s.issued ∧ g = s.gen
            then { s with displayed := some (b, snap) } else s) =
          { s with displayed := some (b, snap) }
        rw [if_pos hc]
      rw [heq]
      exact ⟨h.1, h.2⟩
    · have heq : fetchStep s (FetchEv.resolve g b snap) = s := by
        show (if (g, b) ∈ s.issued ∧ g = s.gen
            then { s with displayed := some (b, snap) } else s) = s
        rw [if_neg hc]
      rw [heq]
      exact h

lemma fetchRun_inv (b0 : String) (evs : List FetchEv) : FetchInv (fetchRun b0 evs) := by
  have key : ∀ s, FetchInv s → FetchInv (evs.foldl fetchStep s) := by
    induction evs with
    | nil => intro s hs; exact hs
    | cons e es ih =>
      intro s hs
      exact ih _ (fetchInv_step s e hs)
  exact key _ (fetchInv_init b0)

/-- **C9** — for any sequence of base-currency changes and fetch resolutions
in any order, a snapshot produced by a superseded (stale) fetch is never
applied: whenever an event changes the displayed rates, that event is a
resolution of the *current* request generation, and hence of the most
recently requested base currency. -/
theorem c9_stale_fetch_never_applied (b0 : String) (evs : List FetchEv) (ev : FetchEv)
    (hchange : (fetchStep (fetchRun b0 evs) ev).displayed ≠ (fetchRun b0 evs).displayed) :
    ∃ g snap, ev = FetchEv.resolve g (fetchRun b0 evs).curBase snap ∧
      g = (fetchRun b0 evs).gen := by
  have hinv := fetchRun_inv b0 evs
  cases ev with
  | changeBase b => exact absurd rfl hchange
  | resolve g b snap =>
    by_cases hcond : (g, b) ∈ (fetchRun b0 evs).issued ∧ g = (fetchRun b0 evs).gen
    · have hb : b = (fetchRun b0 evs).curBase := hinv.2 (g, b) hcond.1 hcond.2
      exact ⟨g, snap, by rw [hb], hcond.2⟩
    · exfalso
      apply hchange
      have heq : fetchStep (fetchRun b0 evs) (FetchEv.resolve g b snap) = fetchRun b0 evs := by
        show (if (g, b) ∈ (fetchRun b0 evs).issued ∧ g = (fetchRun b0 evs).gen
            then { fetchRun b0 evs with displayed := some (b, snap) } else fetchRun b0 evs) =
          fetchRun b0 evs
        rw [if_neg hcond]
      rw [heq]

/-- Witness for `c9_stale_fetch_never_applied`: on a fresh mount for `"USD"`,
the resolution of the generation-0 request changes the displayed state, and
the theorem identifies it as current. -/
theorem c9_stale_fetch_never_applied_witness :
    (fetchStep (fetchRun "USD" []) (FetchEv.resolve 0 "USD" [])).displayed ≠
      (fetchRun "USD" []).displayed ∧
    ∃ g snap, FetchEv.resolve 0 "USD" ([] : RateSnapshot) =
        FetchEv.resolve g (fetchRun "USD" []).curBase snap ∧
      g = (fetchRun "USD" []).gen :=
  ⟨by simp [fetchRun, fetchInit, fetchStep],
    c9_stale_fetch_never_applied "USD" [] (FetchEv.resolve 0 "USD" [])
      (by simp [fetchRun, fetchInit, fetchStep])⟩
